import Mathlib

/-
Shallow embedding of the block-graph reconstruction core of
src/lambda_function.py: the functions extract_text, extract_forms,
extract_tables, find_value_block and get_text, over a flat collection of
Textract blocks.

Modelling conventions:
- A Textract block is a JSON object; the attributes the code touches are
  modelled as fields.  Attributes that the code reads with a plain
  subscript (so that absence raises KeyError) are modelled as Option
  fields, and each function that performs such an access returns Option:
  a none result models the raised exception.
- An absent Relationships key is modelled as the empty relationship list:
  every access is guarded by a presence test in the source, so absence
  and the empty list are indistinguishable.
- Python dicts are modelled as insertion-ordered association lists.
  Assignment replaces the value in place when the key is present
  (keeping its position) and appends otherwise, exactly the observable
  behaviour of dict assignment; lookup returns the first (hence current)
  entry for the key.
- Python str.strip is modelled as pyStrip, removing leading and trailing
  whitespace characters; s1.join(l) as an explicit recursion.
-/

structure Relationship where
  rtype : String
  ids : List String
  deriving DecidableEq

structure Block where
  id : String
  blockType : String
  text : Option String
  entityTypes : Option (List String)
  rowIndex : Option Nat
  columnIndex : Option Nat
  relationships : List Relationship
  deriving DecidableEq

/-- Python dict assignment on an insertion-ordered association list:
replace in place if the key is present, append otherwise. -/
def dinsert {κ α : Type} [BEq κ] : List (κ × α) → κ → α → List (κ × α)
  | [], k, v => [(k, v)]
  | p :: rest, k, v =>
    if p.1 == k then (k, v) :: rest else p :: dinsert rest k v

/-- Python dict lookup: the entry for the key, if present. -/
def dget? {κ α : Type} [BEq κ] (d : List (κ × α)) (k : κ) : Option α :=
  (d.find? (fun p => p.1 == k)).map (fun p => p.2)

/-- Last element of a list satisfying a predicate, if any. -/
def lastMatch {α : Type} (p : α → Bool) : List α → Option α
  | [] => none
  | b :: rest =>
    match lastMatch p rest with
    | some r => some r
    | none => if p b then some b else none

/-- Value of the last pair in the list carrying the given key, if any. -/
def lastVal : List (String × String) → String → Option String
  | [], _ => none
  | p :: rest, k =>
    match lastVal rest k with
    | some v => some v
    | none => if p.1 == k then some p.2 else none

/-- Whitespace characters stripped by Python str.strip. -/
def isSpaceC (c : Char) : Bool :=
  c == ' ' || c == '\t' || c == '\n' || c == '\r' || c == '\x0b' || c == '\x0c'

/-- Remove trailing whitespace characters. -/
def stripEndC (l : List Char) : List Char :=
  (l.reverse.dropWhile isSpaceC).reverse

/-- Python str.strip: remove leading and trailing whitespace. -/
def pyStrip (s : String) : String :=
  String.mk ((stripEndC s.data).dropWhile isSpaceC)

/-- Trailing-whitespace-only trim, used to state the spec reading of the
display-text rule (which mentions only a trailing trim). -/
def stripTrailing (s : String) : String :=
  String.mk (stripEndC s.data)

/-- The raw accumulation performed by the text loops of the source: every
collected word text followed by one space. -/
def joinTrail : List String → String
  | [] => ""
  | t :: rest => t ++ " " ++ joinTrail rest

/-- Python s.join for a single-space separator. -/
def joinSpace : List String → String
  | [] => ""
  | [t] => t
  | t :: rest => t ++ " " ++ joinSpace rest

/-- Python s.join for a newline separator. -/
def joinLines : List String → String
  | [] => ""
  | [t] => t
  | t :: rest => t ++ "\n" ++ joinLines rest

/-- Loop of extract_text: collect block Text over LINE blocks in
collection order; a LINE block with an absent Text raises (none). -/
def collectLineTexts : List Block → Option (List String)
  | [] => some []
  | b :: rest =>
    if b.blockType == "LINE" then
      match b.text with
      | none => none
      | some t => (collectLineTexts rest).map (fun ts => t :: ts)
    else collectLineTexts rest

/-- extract_text of src/lambda_function.py: texts of LINE blocks joined
with a newline. -/
def extract_text (blocks : List Block) : Option String :=
  (collectLineTexts blocks).map joinLines

/-- Inner loop of get_text over the target ids of one CHILD relationship,
with a pluggable id resolver: a resolvable WORD child appends its Text
plus one space; an unresolvable id or a non-WORD child is skipped; a WORD
child with absent Text raises (none). -/
def textLoopIds (resolve : String → Option Block) : List String → Option String
  | [] => some ""
  | i :: rest =>
    match resolve i with
    | some w =>
      if w.blockType == "WORD" then
        match w.text with
        | none => none
        | some t => (textLoopIds resolve rest).map (fun s => t ++ " " ++ s)
      else textLoopIds resolve rest
    | none => textLoopIds resolve rest

/-- Outer loop of get_text over the relationships of a block: only CHILD
relationships contribute. -/
def textLoopRels (resolve : String → Option Block) : List Relationship → Option String
  | [] => some ""
  | r :: rest =>
    if r.rtype == "CHILD" then
      match textLoopIds resolve r.ids with
      | none => none
      | some a =>
        match textLoopRels resolve rest with
        | none => none
        | some b => some (a ++ b)
    else textLoopRels resolve rest

/-- get_text of src/lambda_function.py: accumulate Text of the WORD
children found through block_map, then strip. -/
def get_text (block : Block) (block_map : List (String × Block)) : Option String :=
  (textLoopRels (fun i => dget? block_map i) block.relationships).map pyStrip

/-- Inner loop of find_value_block over the target ids of one VALUE
relationship: the first id present in value_map wins. -/
def findValueIds (value_map : List (String × Block)) : List String → Option Block
  | [] => none
  | i :: rest =>
    match dget? value_map i with
    | some b => some b
    | none => findValueIds value_map rest

/-- find_value_block of src/lambda_function.py: scan the VALUE
relationships in listed order, returning the first target resolvable in
value_map; none models the Python None result. -/
def find_value_block (key_block : Block) (value_map : List (String × Block)) : Option Block :=
  go key_block.relationships
where
  go : List Relationship → Option Block
    | [] => none
    | r :: rest =>
      if r.rtype == "VALUE" then
        match findValueIds value_map r.ids with
        | some b => some b
        | none => go rest
      else go rest

/-- The three dictionaries built by the first loop of extract_forms. -/
structure FormMaps where
  key_map : List (String × Block)
  value_map : List (String × Block)
  block_map : List (String × Block)
  deriving DecidableEq

/-- First loop of extract_forms: index every block by id in block_map and
partition KEY_VALUE_SET blocks by EntityTypes; a KEY_VALUE_SET block with
an absent EntityTypes raises (none). -/
def buildFormMapsAux (acc : FormMaps) : List Block → Option FormMaps
  | [] => some acc
  | b :: rest =>
    let bm := dinsert acc.block_map b.id b
    if b.blockType == "KEY_VALUE_SET" then
      match b.entityTypes with
      | none => none
      | some ets =>
        if ets.contains "KEY" then
          buildFormMapsAux ⟨dinsert acc.key_map b.id b, acc.value_map, bm⟩ rest
        else
          buildFormMapsAux ⟨acc.key_map, dinsert acc.value_map b.id b, bm⟩ rest
    else
      buildFormMapsAux ⟨acc.key_map, acc.value_map, bm⟩ rest

def buildFormMaps (blocks : List Block) : Option FormMaps :=
  buildFormMapsAux ⟨[], [], []⟩ blocks

/-- Second loop of extract_forms: for each key block (in key_map order)
resolve the paired value block and both display texts, and record the
pair when both texts are non-empty. -/
def formsLoop (maps : FormMaps) : List (String × Block) → List (String × String) → Option (List (String × String))
  | [], forms => some forms
  | (_, kb) :: rest, forms =>
    match get_text kb maps.block_map with
    | none => none
    | some key_text =>
      match (match find_value_block kb maps.value_map with
             | some vb => get_text vb maps.block_map
             | none => some "") with
      | none => none
      | some value_text =>
        if key_text != "" && value_text != "" then
          formsLoop maps rest (dinsert forms key_text value_text)
        else
          formsLoop maps rest forms

/-- extract_forms of src/lambda_function.py. -/
def extract_forms (blocks : List Block) : Option (List (String × String)) :=
  match buildFormMaps blocks with
  | none => none
  | some maps => formsLoop maps maps.key_map []

/-- The generator-with-default of the table word lookup:
next((b for b in blocks if b.id == word_id), None). -/
def findBlockById (blocks : List Block) (i : String) : Option Block :=
  blocks.find? (fun b => b.id == i)

/-- The cell-collecting list comprehension of extract_tables: all blocks
(in collection order) whose id occurs among the target ids. -/
def cellsOf (blocks : List Block) (cell_ids : List String) : List Block :=
  blocks.filter (fun b => cell_ids.contains b.id)

/-- Cell text of extract_tables: same accumulation as get_text but with
the word lookup scanning the whole collection for the first id match,
then stripped at the assignment into the row dict. -/
def cellText (blocks : List Block) (cell : Block) : Option String :=
  (textLoopRels (findBlockById blocks) cell.relationships).map pyStrip

/-- Nested row dict of extract_tables: row index to column index to text. -/
abbrev Rows := List (Nat × List (Nat × String))

/-- The two dict assignments rows[r] = default-empty and rows[r][c] = t. -/
def rowsSet (rows : Rows) (r c : Nat) (t : String) : Rows :=
  dinsert rows r (dinsert ((dget? rows r).getD []) c t)

/-- Cell loop of extract_tables over the cells of one CHILD relationship:
only CELL blocks contribute; row and column indices default to 1. -/
def buildRows (blocks : List Block) : List Block → Rows → Option Rows
  | [], rows => some rows
  | cell :: rest, rows =>
    if cell.blockType == "CELL" then
      match cellText blocks cell with
      | none => none
      | some t =>
        buildRows blocks rest (rowsSet rows (cell.rowIndex.getD 1) (cell.columnIndex.getD 1) t)
    else buildRows blocks rest rows

/-- Python sorted on a list of numeric keys. -/
def sortNat (l : List Nat) : List Nat :=
  List.insertionSort (fun a b => a ≤ b) l

/-- Materialisation loop of extract_tables: rows in ascending row index;
within a row, the columns present, in ascending column index. -/
def materializeRows (rows : Rows) : List (List String) :=
  (sortNat (rows.map Prod.fst)).map (fun r =>
    (sortNat (((dget? rows r).getD []).map Prod.fst)).map
      (fun c => (dget? ((dget? rows r).getD []) c).getD ""))

/-- Relationship loop of extract_tables for one table block: each CHILD
relationship builds its own row dict and appends its materialised rows. -/
def tableRels (blocks : List Block) : List Relationship → Option (List (List String))
  | [] => some []
  | rel :: rest =>
    if rel.rtype == "CHILD" then
      match buildRows blocks (cellsOf blocks rel.ids) [] with
      | none => none
      | some rows =>
        match tableRels blocks rest with
        | none => none
        | some t => some (materializeRows rows ++ t)
    else tableRels blocks rest

/-- Grid produced for one table block. -/
def tableOf (blocks : List Block) (tb : Block) : Option (List (List String)) :=
  tableRels blocks tb.relationships

/-- Table loop of extract_tables: a table is appended only when its grid
is non-empty. -/
def tablesLoop (blocks : List Block) : List Block → Option (List (List (List String)))
  | [] => some []
  | tb :: rest =>
    match tableOf blocks tb with
    | none => none
    | some t =>
      match tablesLoop blocks rest with
      | none => none
      | some ts => some (if t.isEmpty then ts else t :: ts)

/-- extract_tables of src/lambda_function.py. -/
def extract_tables (blocks : List Block) : Option (List (List (List String))) :=
  tablesLoop blocks (blocks.filter (fun b => b.blockType == "TABLE"))

/-- Texts of the WORD blocks reached through the target ids of one CHILD
relationship, in listed order, skipping unresolvable ids and non-WORD
children; none models a WORD child with absent Text. -/
def childWordTextsIds (resolve : String → Option Block) : List String → Option (List String)
  | [] => some []
  | i :: rest =>
    match resolve i with
    | some w =>
      if w.blockType == "WORD" then
        match w.text with
        | none => none
        | some t => (childWordTextsIds resolve rest).map (fun ts => t :: ts)
      else childWordTextsIds resolve rest
    | none => childWordTextsIds resolve rest

/-- Texts of the WORD children of a block through its CHILD-kind
relationships, in listed order. -/
def childWordTexts (resolve : String → Option Block) : List Relationship → Option (List String)
  | [] => some []
  | r :: rest =>
    if r.rtype == "CHILD" then
      match childWordTextsIds resolve r.ids with
      | none => none
      | some a =>
        match childWordTexts resolve rest with
        | none => none
        | some b => some (a ++ b)
    else childWordTexts resolve rest

/-- Outcome of the body of the second extract_forms loop for one key
block: none models a raised exception, some none a filtered-out pair,
some (some (k, v)) a recorded pair. -/
def emitOf (maps : FormMaps) (kb : Block) : Option (Option (String × String)) :=
  match get_text kb maps.block_map with
  | none => none
  | some key_text =>
    match (match find_value_block kb maps.value_map with
           | some vb => get_text vb maps.block_map
           | none => some "") with
    | none => none
    | some value_text =>
      some (if key_text != "" && value_text != "" then some (key_text, value_text) else none)

/-- Ordered list of the (key text, value text) pairs recorded by the
second extract_forms loop, before dict collapsing. -/
def emissions (maps : FormMaps) : List (String × Block) → Option (List (String × String))
  | [] => some []
  | (_, kb) :: rest =>
    match emitOf maps kb with
    | none => none
    | some e =>
      match emissions maps rest with
      | none => none
      | some es => some (match e with | some p => p :: es | none => es)

theorem dget?_nil {κ α : Type} [BEq κ] (k : κ) : dget? ([] : List (κ × α)) k = none := rfl

theorem dget?_cons {κ α : Type} [BEq κ] (p : κ × α) (rest : List (κ × α)) (k : κ) :
    dget? (p :: rest) k = if p.1 == k then some p.2 else dget? rest k := by
  by_cases h : p.1 == k
  · simp [dget?, List.find?_cons_of_pos _ h, h]
  · simp [dget?, List.find?_cons_of_neg, h]

theorem dget?_dinsert_self {κ α : Type} [BEq κ] [LawfulBEq κ]
    (d : List (κ × α)) (k : κ) (v : α) :
    dget? (dinsert d k v) k = some v := by
  induction d with
  | nil => simp [dinsert, dget?_cons]
  | cons p rest ih =>
    by_cases h : p.1 == k
    · simp [dinsert, h, dget?_cons]
    · simp only [dinsert, h, if_false, Bool.false_eq_true]
      rw [dget?_cons]
      simp [h, ih]

theorem dget?_dinsert_ne {κ α : Type} [BEq κ] [LawfulBEq κ]
    (d : List (κ × α)) (k k' : κ) (v : α) (hne : k' ≠ k) :
    dget? (dinsert d k v) k' = dget? d k' := by
  induction d with
  | nil =>
    simp only [dinsert, dget?_cons, dget?_nil]
    have : (k == k') = false := by
      simp [beq_eq_false_iff_ne]
      exact fun hh => hne hh.symm
    simp [this]
  | cons p rest ih =>
    by_cases h : p.1 == k
    · have hpk : p.1 = k := by exact eq_of_beq h
      simp only [dinsert, h, if_true]
      rw [dget?_cons, dget?_cons]
      have hk : (k == k') = false := by
        simp [beq_eq_false_iff_ne]
        exact fun hh => hne hh.symm
      have hp : (p.1 == k') = false := by
        simp [beq_eq_false_iff_ne, hpk]
        exact fun hh => hne hh.symm
      simp [hk, hp]
    · simp only [dinsert, h, if_false, Bool.false_eq_true]
      rw [dget?_cons, dget?_cons]
      by_cases h2 : p.1 == k'
      · simp [h2]
      · simp [h2, ih]

theorem dinsert_ne_nil {κ α : Type} [BEq κ] (d : List (κ × α)) (k : κ) (v : α) :
    dinsert d k v ≠ [] := by
  cases d with
  | nil => simp [dinsert]
  | cons p rest =>
    simp only [dinsert]
    by_cases h : p.1 == k <;> simp [h]

theorem mem_dinsert {κ α : Type} [BEq κ] (d : List (κ × α)) (k : κ) (v : α)
    (q : κ × α) (hq : q ∈ dinsert d k v) : q = (k, v) ∨ q ∈ d := by
  induction d with
  | nil => simp [dinsert] at hq; simp [hq]
  | cons p rest ih =>
    by_cases h : p.1 == k
    · simp only [dinsert, h, if_true] at hq
      rcases List.mem_cons.mp hq with h1 | h1
      · exact Or.inl h1
      · exact Or.inr (List.mem_cons_of_mem _ h1)
    · simp only [dinsert, h, if_false, Bool.false_eq_true] at hq
      rcases List.mem_cons.mp hq with h1 | h1
      · exact Or.inr (h1 ▸ List.mem_cons_self _ _)
      · rcases ih h1 with h2 | h2
        · exact Or.inl h2
        · exact Or.inr (List.mem_cons_of_mem _ h2)

theorem pyStrip_append_space (s : String) : pyStrip (s ++ " ") = pyStrip s := by
  have hd : (s ++ " ").data = s.data ++ [' '] := by
    rw [String.data_append]
  have hstrip : stripEndC (s.data ++ [' ']) = stripEndC s.data := by
    unfold stripEndC
    rw [List.reverse_append]
    simp [List.dropWhile, isSpaceC]
  unfold pyStrip
  rw [hd, hstrip]

theorem joinTrail_eq_joinSpace (ts : List String) (h : ts ≠ []) :
    joinTrail ts = joinSpace ts ++ " " := by
  induction ts with
  | nil => simp at h
  | cons t rest ih =>
    cases rest with
    | nil => simp [joinTrail, joinSpace, String.append_empty]
    | cons u more =>
      have := ih (by simp)
      simp only [joinTrail, joinSpace] at this ⊢
      rw [this, ← String.append_assoc]

theorem pyStrip_joinTrail (ts : List String) :
    pyStrip (joinTrail ts) = pyStrip (joinSpace ts) := by
  cases ts with
  | nil => rfl
  | cons t rest =>
    rw [joinTrail_eq_joinSpace _ (by simp), pyStrip_append_space]

theorem joinTrail_append (a b : List String) :
    joinTrail (a ++ b) = joinTrail a ++ joinTrail b := by
  induction a with
  | nil => simp [joinTrail, String.empty_append]
  | cons t rest ih => simp [joinTrail, ih, String.append_assoc]

theorem textLoopIds_eq (resolve : String → Option Block) (ids : List String) :
    textLoopIds resolve ids = (childWordTextsIds resolve ids).map joinTrail := by
  induction ids with
  | nil => rfl
  | cons i rest ih =>
    simp only [textLoopIds, childWordTextsIds]
    cases hres : resolve i with
    | none => exact ih
    | some w =>
      by_cases hw : w.blockType == "WORD"
      · simp only [hw, if_true]
        cases ht : w.text with
        | none => rfl
        | some t =>
          rw [ih]
          cases hc : childWordTextsIds resolve rest <;> simp [joinTrail]
      · simp only [hw, Bool.false_eq_true, if_false]
        exact ih
  
theorem textLoopRels_eq (resolve : String → Option Block) (rels : List Relationship) :
    textLoopRels resolve rels = (childWordTexts resolve rels).map joinTrail := by
  induction rels with
  | nil => rfl
  | cons r rest ih =>
    simp only [textLoopRels, childWordTexts]
    by_cases hr : r.rtype == "CHILD"
    · simp only [hr, if_true]
      rw [textLoopIds_eq]
      cases ha : childWordTextsIds resolve r.ids with
      | none => rfl
      | some a =>
        rw [ih]
        cases hb : childWordTexts resolve rest with
        | none => rfl
        | some b => simp [joinTrail_append]
    · simp only [hr, Bool.false_eq_true, if_false]
      exact ih

theorem collectLineTexts_eq (blocks : List Block)
    (h : ∀ b ∈ blocks, b.blockType = "LINE" → b.text ≠ none) :
    collectLineTexts blocks =
      some (blocks.filterMap (fun b => if b.blockType == "LINE" then b.text else none)) := by
  induction blocks with
  | nil => rfl
  | cons b rest ih =>
    have hrest := fun x hx => h x (List.mem_cons_of_mem _ hx)
    simp only [collectLineTexts, List.filterMap_cons]
    by_cases hb : b.blockType == "LINE"
    · cases ht : b.text with
      | none => exact absurd ht (h b (List.mem_cons_self _ _) (eq_of_beq hb))
      | some t => simp [hb, ht, ih hrest]
    · simp [hb, ih hrest]

/-- C1: for every block collection whose LINE blocks carry a Text
attribute, the text-assembly output is exactly the Text of the LINE
blocks, in original collection order, joined with a single newline,
regardless of interleaved WORD or other block types (the right-hand side
depends only on the LINE blocks in order). -/
theorem extract_text_line_order (blocks : List Block)
    (h : ∀ b ∈ blocks, b.blockType = "LINE" → b.text ≠ none) :
    extract_text blocks =
      some (joinLines (blocks.filterMap
        (fun b => if b.blockType == "LINE" then b.text else none))) := by
  unfold extract_text
  rw [collectLineTexts_eq blocks h]
  rfl

/-- WORD, LINE and PAGE blocks interleaved, for the C1 witness. -/
def c1blocks : List Block :=
  [ ⟨"w1", "WORD", some "x", none, none, none, []⟩,
    ⟨"l1", "LINE", some "alpha", none, none, none, []⟩,
    ⟨"p1", "PAGE", none, none, none, none, []⟩,
    ⟨"l2", "LINE", some "beta", none, none, none, []⟩ ]

/-- C1 witness: the theorem applied to a concrete interleaved collection. -/
theorem extract_text_line_order_witness :
    extract_text c1blocks = some "alpha\nbeta" :=
  (extract_text_line_order c1blocks (by decide)).trans (by decide)

/-- C5 (amended): the display text of a key or value block (get_text)
and of a cell block (the identical accumulation of extract_tables) is
the WORD children texts, in listed order, joined with a single space and
trimmed of leading AND trailing whitespace (Python strip trims both
ends, not only the trailing end as the claim states). -/
theorem display_text_join_trim (block : Block) (block_map : List (String × Block))
    (blocks : List Block) (cell : Block) (ts us : List String)
    (hts : childWordTexts (fun i => dget? block_map i) block.relationships = some ts)
    (hus : childWordTexts (findBlockById blocks) cell.relationships = some us) :
    get_text block block_map = some (pyStrip (joinSpace ts)) ∧
    cellText blocks cell = some (pyStrip (joinSpace us)) := by
  constructor
  · unfold get_text
    rw [textLoopRels_eq, hts]
    simp [pyStrip_joinTrail]
  · unfold cellText
    rw [textLoopRels_eq, hus]
    simp [pyStrip_joinTrail]

def c5word : Block := ⟨"w", "WORD", some "Total", none, none, none, []⟩

def c5key : Block :=
  ⟨"k", "KEY_VALUE_SET", none, some ["KEY"], none, none, [⟨"CHILD", ["w"]⟩]⟩

def c5cell : Block := ⟨"c", "CELL", none, none, some 1, some 1, [⟨"CHILD", ["w"]⟩]⟩

/-- C5 witness: the amended theorem applied to a concrete key block and
a concrete cell block, each with one WORD child. -/
theorem display_text_join_trim_witness :
    get_text c5key [("w", c5word)] = some (pyStrip (joinSpace ["Total"])) ∧
    cellText [c5word, c5cell] c5cell = some (pyStrip (joinSpace ["Total"])) :=
  display_text_join_trim c5key [("w", c5word)] [c5word, c5cell] c5cell
    ["Total"] ["Total"] (by decide) (by decide)

def c5wordLead : Block := ⟨"wl", "WORD", some " a", none, none, none, []⟩

def c5keyLead : Block :=
  ⟨"kl", "KEY_VALUE_SET", none, some ["KEY"], none, none, [⟨"CHILD", ["wl"]⟩]⟩

/-- C5 counterexample: a WORD child whose Text starts with a space.  The
claim (join with a single space, trim only trailing whitespace) predicts
the display text " a"; the code strips both ends and yields "a". -/
theorem display_text_counterexample :
    get_text c5keyLead [("wl", c5wordLead)] = some "a" ∧
    stripTrailing (joinSpace [" a"]) = " a" ∧
    some "a" ≠ some (stripTrailing (joinSpace [" a"])) :=
  ⟨by decide, by decide, by decide⟩

theorem textLoopIds_filter_resolvable (resolve : String → Option Block) (ids : List String) :
    textLoopIds resolve ids =
      textLoopIds resolve (ids.filter (fun i => (resolve i).isSome)) := by
  induction ids with
  | nil => rfl
  | cons i rest ih =>
    cases hres : resolve i with
    | none => simp [textLoopIds, List.filter_cons, hres, ih]
    | some w =>
      simp only [List.filter_cons, hres, Option.isSome_some, if_true]
      simp only [textLoopIds, hres]
      by_cases hw : w.blockType == "WORD"
      · simp only [hw, if_true]
        cases w.text <;> simp [ih]
      · simp [hw, ih]

theorem findValueIds_filter_resolvable (vm : List (String × Block)) (ids : List String) :
    findValueIds vm ids =
      findValueIds vm (ids.filter (fun i => (dget? vm i).isSome)) := by
  induction ids with
  | nil => rfl
  | cons i rest ih =>
    cases hv : dget? vm i with
    | none => simp [findValueIds, List.filter_cons, hv, ih]
    | some b => simp [findValueIds, List.filter_cons, hv]

theorem cellsOf_filter_resolvable (blocks : List Block) (ids : List String) :
    cellsOf blocks ids =
      cellsOf blocks (ids.filter (fun i => (findBlockById blocks i).isSome)) := by
  unfold cellsOf
  apply List.filter_congr
  intro b hb
  have hres : (findBlockById blocks b.id).isSome := by
    rw [findBlockById, List.find?_isSome]
    exact ⟨b, hb, by simp⟩
  by_cases hmem : b.id ∈ ids
  · have h2 : b.id ∈ ids.filter (fun i => (findBlockById blocks i).isSome) :=
      List.mem_filter.mpr ⟨hmem, hres⟩
    simp [List.contains, List.elem_eq_mem, hmem, h2]
  · have h2 : b.id ∉ ids.filter (fun i => (findBlockById blocks i).isSome) :=
      fun hc => hmem (List.mem_filter.mp hc).1
    simp [List.contains, List.elem_eq_mem, hmem, h2]

/-- C7: a relationship target id that resolves to no block never causes
a failure: every resolution loop returns the same result when the
unresolvable ids are deleted, i.e. it operates on the resolvable subset
only.  The first equation instantiates both to get_text (resolve is the
block_map lookup) and to the table word lookup of extract_tables
(resolve is findBlockById); the second covers the value-block pairing of
find_value_block; the third the table cell collection of extract_tables. -/
theorem dangling_ids_skipped :
    (∀ (resolve : String → Option Block) (ids : List String),
       textLoopIds resolve ids =
         textLoopIds resolve (ids.filter (fun i => (resolve i).isSome)))
  ∧ (∀ (vm : List (String × Block)) (ids : List String),
       findValueIds vm ids =
         findValueIds vm (ids.filter (fun i => (dget? vm i).isSome)))
  ∧ (∀ (blocks : List Block) (ids : List String),
       cellsOf blocks ids =
         cellsOf blocks (ids.filter (fun i => (findBlockById blocks i).isSome))) :=
  ⟨textLoopIds_filter_resolvable, findValueIds_filter_resolvable,
   cellsOf_filter_resolvable⟩

def c6lineEmpty : Block := ⟨"le", "LINE", some "", none, none, none, []⟩

def c6lineFoo : Block := ⟨"lf", "LINE", some "foo", none, none, none, []⟩

def c6lineNoText : Block := ⟨"ln", "LINE", none, none, none, none, []⟩

def c6kvsNoRoles : Block := ⟨"kn", "KEY_VALUE_SET", none, none, none, none, []⟩

def c6kvsEmptyRoles : Block := ⟨"ke", "KEY_VALUE_SET", none, some [], none, none, []⟩

/-- C6 counterexample: a LINE block with an absent Text attribute makes
extract_text raise a KeyError (modelled as the none result), and a
KEY_VALUE_SET block with no EntityTypes attribute makes extract_forms
raise, contrary to the claim that reconstruction never fails on an
absent optional attribute. -/
theorem optional_attrs_counterexample :
    extract_text [c6lineNoText] = none ∧ extract_forms [c6kvsNoRoles] = none :=
  ⟨by decide, by decide⟩

/-- C6 (amended): a LINE block with an EMPTY Text contributes an empty
line, but a LINE block with an ABSENT Text aborts text assembly; a
KEY_VALUE_SET block whose PRESENT EntityTypes does not contain KEY is
partitioned into the values side, but an ABSENT EntityTypes aborts form
extraction. -/
theorem optional_attrs_amended :
    extract_text [c6lineEmpty, c6lineFoo] = some "\nfoo" ∧
    extract_text [c6lineNoText] = none ∧
    buildFormMaps [c6kvsEmptyRoles] =
      some ⟨[], [("ke", c6kvsEmptyRoles)], [("ke", c6kvsEmptyRoles)]⟩ ∧
    extract_forms [c6kvsNoRoles] = none :=
  ⟨by decide, by decide, by decide, by decide⟩

theorem mem_cellsOf (blocks : List Block) (ids : List String) (b : Block)
    (hb : b ∈ cellsOf blocks ids) : b ∈ blocks ∧ b.id ∈ ids := by
  unfold cellsOf at hb
  have h := List.mem_filter.mp hb
  refine ⟨h.1, ?_⟩
  have h2 := h.2
  simpa [List.contains, List.elem_eq_mem] using h2

theorem buildRows_no_cell (blocks : List Block) (cells : List Block) (rows : Rows)
    (h : ∀ c ∈ cells, c.blockType ≠ "CELL") :
    buildRows blocks cells rows = some rows := by
  induction cells with
  | nil => rfl
  | cons c rest ih =>
    have hc : (c.blockType == "CELL") = false := by
      simp [beq_eq_false_iff_ne]
      exact h c (List.mem_cons_self _ _)
    simp only [buildRows, hc, Bool.false_eq_true, if_false]
    exact ih (fun x hx => h x (List.mem_cons_of_mem _ hx))

theorem tableRels_no_cell (blocks : List Block) (rels : List Relationship)
    (h : ∀ rel ∈ rels, rel.rtype = "CHILD" →
      ∀ b ∈ blocks, b.id ∈ rel.ids → b.blockType ≠ "CELL") :
    tableRels blocks rels = some [] := by
  induction rels with
  | nil => rfl
  | cons r rest ih =>
    have hrest := fun rel hrel => h rel (List.mem_cons_of_mem _ hrel)
    by_cases hr : r.rtype == "CHILD"
    · have hcells : ∀ c ∈ cellsOf blocks r.ids, c.blockType ≠ "CELL" := by
        intro c hc
        have hm := mem_cellsOf blocks r.ids c hc
        exact h r (List.mem_cons_self _ _) (eq_of_beq hr) c hm.1 hm.2
      have hbr := buildRows_no_cell blocks (cellsOf blocks r.ids) [] hcells
      simp [tableRels, hr, hbr, materializeRows, sortNat, ih hrest]
    · simp [tableRels, hr, ih hrest]

/-- C9: a table block none of whose CHILD relationship targets resolves
to a CELL block (unresolvable targets included; targets of non-CHILD
relationships are unconstrained, since the code skips those
relationships) yields the empty grid, and the table loop then drops it:
removing that block from the table list leaves the output unchanged, so
it contributes zero entries rather than an empty grid. -/
theorem empty_table_dropped (blocks : List Block) (tb : Block)
    (_htype : tb.blockType = "TABLE")
    (h : ∀ rel ∈ tb.relationships, rel.rtype = "CHILD" →
      ∀ b ∈ blocks, b.id ∈ rel.ids → b.blockType ≠ "CELL") :
    tableOf blocks tb = some [] ∧
    ∀ rest, tablesLoop blocks (tb :: rest) = tablesLoop blocks rest := by
  have hto : tableOf blocks tb = some [] := tableRels_no_cell blocks tb.relationships h
  refine ⟨hto, fun rest => ?_⟩
  simp only [tablesLoop, hto]
  cases tablesLoop blocks rest <;> simp [List.isEmpty]

def c9word : Block := ⟨"w9", "WORD", some "v", none, none, none, []⟩

def c9cellStray : Block := ⟨"c9s", "CELL", none, none, some 1, some 1, []⟩

def c9table : Block :=
  ⟨"t9", "TABLE", none, none, none, none,
    [⟨"CHILD", ["w9", "ghost"]⟩, ⟨"MERGED_CELL", ["c9s"]⟩]⟩

/-- C9 witness: a table whose only CHILD relationship targets a WORD
block and a dangling id contributes nothing to the table loop, even
though a non-CHILD (MERGED_CELL) relationship of the same table targets
a CELL block of the collection. -/
theorem empty_table_dropped_witness :
    tablesLoop [c9table, c9word, c9cellStray] [c9table] =
      tablesLoop [c9table, c9word, c9cellStray] [] :=
  (empty_table_dropped [c9table, c9word, c9cellStray] c9table
    (by decide) (by decide)).2 []

theorem rowsSet_inner_ne_nil (rows : Rows) (r c : Nat) (t : String)
    (h : ∀ p ∈ rows, p.2 ≠ []) : ∀ p ∈ rowsSet rows r c t, p.2 ≠ [] := by
  intro p hp
  rcases mem_dinsert _ _ _ p hp with h1 | h1
  · rw [h1]
    exact dinsert_ne_nil _ _ _
  · exact h p h1

theorem buildRows_inner_ne_nil (blocks : List Block) (cells : List Block)
    (rows rows' : Rows) (hb : buildRows blocks cells rows = some rows')
    (h : ∀ p ∈ rows, p.2 ≠ []) : ∀ p ∈ rows', p.2 ≠ [] := by
  induction cells generalizing rows with
  | nil =>
    simp only [buildRows, Option.some.injEq] at hb
    subst hb
    exact h
  | cons c rest ih =>
    by_cases hc : c.blockType == "CELL"
    · simp only [buildRows, hc, if_true] at hb
      cases ht : cellText blocks c with
      | none => rw [ht] at hb; simp at hb
      | some t =>
        rw [ht] at hb
        exact ih _ hb (rowsSet_inner_ne_nil _ _ _ _ h)
    · simp only [buildRows, hc, Bool.false_eq_true, if_false] at hb
      exact ih _ hb h

theorem materializeRows_row_ne_nil (rows : Rows) (h : ∀ p ∈ rows, p.2 ≠ []) :
    ∀ row ∈ materializeRows rows, row ≠ [] := by
  intro row hrow
  unfold materializeRows at hrow
  rcases List.mem_map.mp hrow with ⟨r, hr, heq⟩
  have hr2 : r ∈ rows.map Prod.fst :=
    (List.perm_insertionSort (fun a b => a ≤ b) (rows.map Prod.fst)).mem_iff.mp
      (by simpa [sortNat] using hr)
  rcases List.mem_map.mp hr2 with ⟨p, hp, hpr⟩
  have hex : (rows.find? (fun q => q.1 == r)).isSome := by
    rw [List.find?_isSome]
    exact ⟨p, hp, by simp [hpr]⟩
  obtain ⟨q, hq⟩ := Option.isSome_iff_exists.mp hex
  have hqmem := List.mem_of_find?_eq_some hq
  have hinner : dget? rows r = some q.2 := by simp [dget?, hq]
  have hq2 : q.2 ≠ [] := h q hqmem
  rw [← heq]
  simp only [hinner, Option.getD_some]
  intro hnil
  apply hq2
  have hsortnil := List.map_eq_nil_iff.mp hnil
  have hlen : (q.2.map Prod.fst).length = 0 := by
    have hperm := List.perm_insertionSort (fun a b => a ≤ b) (q.2.map Prod.fst)
    have h2 : List.insertionSort (fun a b => a ≤ b) (q.2.map Prod.fst) = [] := hsortnil
    rw [← hperm.length_eq, h2]
    rfl
  have := List.eq_nil_of_length_eq_zero (by simpa using hlen)
  simpa using this

theorem tableRels_row_ne_nil (blocks : List Block) (rels : List Relationship)
    (t : List (List String)) (ht : tableRels blocks rels = some t) :
    ∀ row ∈ t, row ≠ [] := by
  induction rels generalizing t with
  | nil =>
    simp only [tableRels, Option.some.injEq] at ht
    subst ht
    simp
  | cons r rest ih =>
    by_cases hr : r.rtype == "CHILD"
    · simp only [tableRels, hr, if_true] at ht
      cases hbr : buildRows blocks (cellsOf blocks r.ids) [] with
      | none => rw [hbr] at ht; simp at ht
      | some rows =>
        rw [hbr] at ht
        cases htr : tableRels blocks rest with
        | none => rw [htr] at ht; simp at ht
        | some t2 =>
          rw [htr] at ht
          simp only [Option.some.injEq] at ht
          subst ht
          intro row hrow
          rcases List.mem_append.mp hrow with h1 | h1
          · exact materializeRows_row_ne_nil rows
              (buildRows_inner_ne_nil blocks _ [] rows hbr (by simp)) row h1
          · exact ih t2 htr row h1
    · simp only [tableRels, hr, Bool.false_eq_true, if_false] at ht
      exact ih t ht

theorem tablesLoop_grids (blocks : List Block) (tbs : List Block)
    (res : List (List (List String))) (hres : tablesLoop blocks tbs = some res) :
    ∀ g ∈ res, g ≠ [] ∧ ∀ row ∈ g, row ≠ [] := by
  induction tbs generalizing res with
  | nil =>
    simp only [tablesLoop, Option.some.injEq] at hres
    subst hres
    simp
  | cons tb rest ih =>
    simp only [tablesLoop] at hres
    cases hto : tableOf blocks tb with
    | none => rw [hto] at hres; simp at hres
    | some t =>
      rw [hto] at hres
      cases htl : tablesLoop blocks rest with
      | none => rw [htl] at hres; simp at hres
      | some ts =>
        rw [htl] at hres
        simp only [Option.some.injEq] at hres
        subst hres
        by_cases hempty : t.isEmpty
        · simpa [hempty] using ih ts htl
        · intro g hg
          rw [if_neg hempty] at hg
          rcases List.mem_cons.mp hg with hg | hg
          · subst hg
            have htne : g ≠ [] := by
              intro hnil
              subst hnil
              simp [List.isEmpty] at hempty
            exact ⟨htne, tableRels_row_ne_nil blocks _ g hto⟩
          · exact ih ts htl g hg

/-- C10: every grid emitted by extract_tables contains at least one row,
and every row of every emitted grid contains at least one cell string:
a row dict entry is only created together with a column entry, and an
empty grid is never appended. -/
theorem tables_rows_nonempty (blocks : List Block)
    (res : List (List (List String))) (hres : extract_tables blocks = some res) :
    ∀ g ∈ res, g ≠ [] ∧ ∀ row ∈ g, row ≠ [] :=
  tablesLoop_grids blocks _ res hres

def c10word : Block := ⟨"cw", "WORD", some "A", none, none, none, []⟩

def c10cell : Block :=
  ⟨"cc", "CELL", none, none, some 1, some 1, [⟨"CHILD", ["cw"]⟩]⟩

def c10table : Block :=
  ⟨"ct", "TABLE", none, none, none, none, [⟨"CHILD", ["cc"]⟩]⟩

def c10blocks : List Block := [c10table, c10cell, c10word]

/-- C10 witness: the theorem applied to a concrete one-cell table. -/
theorem tables_rows_nonempty_witness :
    [["A"]] ≠ ([] : List (List String)) ∧ ["A"] ≠ ([] : List String) :=
  ⟨(tables_rows_nonempty c10blocks [[["A"]]] (by decide) [["A"]] (by decide)).1,
   (tables_rows_nonempty c10blocks [[["A"]]] (by decide) [["A"]] (by decide)).2
     ["A"] (by decide)⟩

def c3wX : Block := ⟨"wX", "WORD", some "X", none, none, none, []⟩

def c3wY : Block := ⟨"wY", "WORD", some "Y", none, none, none, []⟩

def c3cRow2 : Block :=
  ⟨"c2", "CELL", none, none, some 2, some 1, [⟨"CHILD", ["wX"]⟩]⟩

def c3cRow1 : Block :=
  ⟨"c1", "CELL", none, none, some 1, some 1, [⟨"CHILD", ["wY"]⟩]⟩

def c3tableTwoRels : Block :=
  ⟨"t3", "TABLE", none, none, none, none, [⟨"CHILD", ["c2"]⟩, ⟨"CHILD", ["c1"]⟩]⟩

def c3cexBlocks : List Block := [c3tableTwoRels, c3cRow2, c3cRow1, c3wX, c3wY]

/-- C3 counterexample: a table with two CHILD relationships, the first
holding the cell of row 2 and the second the cell of row 1.  The code
builds a separate row dict per relationship and concatenates the row
groups, emitting [["X"], ["Y"]] with row index 2 before row index 1;
the claimed table-wide ascending row iteration would emit
[["Y"], ["X"]]. -/
theorem table_sorted_counterexample :
    extract_tables c3cexBlocks = some [[["X"], ["Y"]]] ∧
    some [[["X"], ["Y"]]] ≠ some [[["Y"], ["X"]]] :=
  ⟨by decide, by decide⟩

def c3wA : Block := ⟨"wA", "WORD", some "A", none, none, none, []⟩

def c3wB : Block := ⟨"wB", "WORD", some "B", none, none, none, []⟩

def c3wC : Block := ⟨"wC", "WORD", some "C", none, none, none, []⟩

def c3c11 : Block :=
  ⟨"c11", "CELL", none, none, some 1, some 1, [⟨"CHILD", ["wA"]⟩]⟩

def c3c12 : Block :=
  ⟨"c12", "CELL", none, none, some 1, some 2, [⟨"CHILD", ["wB"]⟩]⟩

def c3c21 : Block :=
  ⟨"c21", "CELL", none, none, some 2, some 1, [⟨"CHILD", ["wC"]⟩]⟩

def c3scnTable : Block :=
  ⟨"t", "TABLE", none, none, none, none, [⟨"CHILD", ["c11", "c12", "c21"]⟩]⟩

def c3scnBlocks : List Block :=
  [c3scnTable, c3c11, c3c12, c3c21, c3wA, c3wB, c3wC]

/-- C3 (amended): within the row group of each single CHILD relationship
the row indices are iterated in ascending numeric order and each row
iterates exactly the column indices present in it in ascending order
(the iteration keys of materializeRows come from sortNat, which always
produces a sorted list), rows are not padded, and the unanimous
single-relationship scenario with cells (1,1)=A, (1,2)=B, (2,1)=C
produces exactly [["A", "B"], ["C"]] with a second row of length 1.
Row groups of distinct CHILD relationships are concatenated in
relationship order, so only the per-relationship order is ascending. -/
theorem table_sorted_amended :
    (∀ l : List Nat, List.Sorted (fun a b => a ≤ b) (sortNat l)) ∧
    (∀ rows : Rows, materializeRows rows =
      (sortNat (rows.map Prod.fst)).map (fun r =>
        (sortNat (((dget? rows r).getD []).map Prod.fst)).map
          (fun c => (dget? ((dget? rows r).getD []) c).getD ""))) ∧
    extract_tables c3scnBlocks = some [[["A", "B"], ["C"]]] :=
  ⟨fun l => List.sorted_insertionSort (fun a b => a ≤ b) l,
   fun _ => rfl,
   by decide⟩

def c4wA : Block := ⟨"wa", "WORD", some "A", none, none, none, []⟩

def c4wB : Block := ⟨"wb", "WORD", some "B", none, none, none, []⟩

def c4cell1 : Block :=
  ⟨"k1", "CELL", none, none, some 1, some 1, [⟨"CHILD", ["wa"]⟩]⟩

def c4cell2 : Block :=
  ⟨"k2", "CELL", none, none, some 1, some 1, [⟨"CHILD", ["wb"]⟩]⟩

def c4tableTwoRels : Block :=
  ⟨"t4", "TABLE", none, none, none, none, [⟨"CHILD", ["k1"]⟩, ⟨"CHILD", ["k2"]⟩]⟩

def c4cexBlocks : List Block := [c4tableTwoRels, c4cell1, c4cell2, c4wA, c4wB]

/-- C4 counterexample: two CHILD relationships of one table each carry a
cell at (row 1, column 1).  Under the claimed single per-table mapping
with later-overwrites-earlier the grid would be [["B"]]; the code keeps
a separate row dict per relationship and emits [["A"], ["B"]]. -/
theorem table_grouping_counterexample :
    extract_tables c4cexBlocks = some [[["A"], ["B"]]] ∧
    some [[["A"], ["B"]]] ≠ some [[["B"]]] :=
  ⟨by decide, by decide⟩

def c4wA2 : Block := ⟨"va", "WORD", some "A", none, none, none, []⟩

def c4wB2 : Block := ⟨"vb", "WORD", some "B", none, none, none, []⟩

def c4cellA : Block :=
  ⟨"cA", "CELL", none, none, some 1, some 1, [⟨"CHILD", ["va"]⟩]⟩

def c4cellB : Block :=
  ⟨"cB", "CELL", none, none, some 1, some 1, [⟨"CHILD", ["vb"]⟩]⟩

def c4tableOneRel : Block :=
  ⟨"t4b", "TABLE", none, none, none, none, [⟨"CHILD", ["cA", "cB"]⟩]⟩

def c4amBlocks : List Block := [c4tableOneRel, c4cellB, c4cellA, c4wA2, c4wB2]

/-- C4 (amended): cells are grouped into one row dict PER CHILD
relationship, not per table; within one relationship the cells are
traversed in block collection order (the collected cell list is a
sublist of the collection), not in target-id order, and a cell
processed later overwrites an earlier cell with the same
(row index, column index): after rowsSet the stored text is the new
one.  Concretely, with target ids listed cA then cB but the collection
ordered cB then cA, the surviving text at (1,1) is that of cA, the cell
later in the collection (id order would keep cB). -/
theorem table_grouping_amended :
    (∀ (rows : Rows) (r c : Nat) (t : String),
       dget? ((dget? (rowsSet rows r c t) r).getD []) c = some t) ∧
    (∀ (blocks : List Block) (ids : List String),
       List.Sublist (cellsOf blocks ids) blocks) ∧
    extract_tables c4amBlocks = some [[["A"]]] := by
  refine ⟨?_, ?_, by decide⟩
  · intro rows r c t
    unfold rowsSet
    rw [dget?_dinsert_self]
    simp [dget?_dinsert_self]
  · intro blocks ids
    exact List.filter_sublist _

theorem formsLoop_step (maps : FormMaps) (kid : String) (kb : Block)
    (rest : List (String × Block)) (forms : List (String × String)) :
    formsLoop maps ((kid, kb) :: rest) forms =
      match emitOf maps kb with
      | none => none
      | some (some p) => formsLoop maps rest (dinsert forms p.1 p.2)
      | some none => formsLoop maps rest forms := by
  simp only [formsLoop, emitOf]
  cases get_text kb maps.block_map with
  | none => rfl
  | some key_text =>
    cases hv : (match find_value_block kb maps.value_map with
                | some vb => get_text vb maps.block_map
                | none => some "") with
    | none => rfl
    | some value_text =>
      by_cases hc : key_text != "" && value_text != ""
      · simp [hc]
      · simp [hc]

theorem formsLoop_eq_emissions (maps : FormMaps) (entries : List (String × Block))
    (forms : List (String × String)) :
    formsLoop maps entries forms =
      (emissions maps entries).map
        (fun es => es.foldl (fun d p => dinsert d p.1 p.2) forms) := by
  induction entries generalizing forms with
  | nil => rfl
  | cons e rest ih =>
    obtain ⟨kid, kb⟩ := e
    rw [formsLoop_step]
    simp only [emissions]
    cases he : emitOf maps kb with
    | none => rfl
    | some em =>
      cases hes : emissions maps rest with
      | none => cases em <;> simp [ih, hes]
      | some es => cases em <;> simp [ih, hes]

theorem dget?_foldl_dinsert (es : List (String × String))
    (d : List (String × String)) (k : String) :
    dget? (es.foldl (fun d p => dinsert d p.1 p.2) d) k =
      match lastVal es k with
      | some v => some v
      | none => dget? d k := by
  induction es generalizing d with
  | nil => rfl
  | cons p rest ih =>
    simp only [List.foldl_cons, lastVal]
    rw [ih]
    cases lastVal rest k with
    | some v => rfl
    | none =>
      by_cases hk : p.1 == k
      · have hpk : p.1 = k := eq_of_beq hk
        simp only [hk, if_true]
        rw [← hpk, dget?_dinsert_self]
      · have hne : k ≠ p.1 := fun h => by simp [h] at hk
        simp only [hk, Bool.false_eq_true, if_false]
        rw [dget?_dinsert_ne _ _ _ _ hne]

/-- C2 (amended): looked up at any key text k, the mapping produced by
extract_forms holds exactly the value text of the LAST key block (in
key_map order) that emits a pair with key text k, where a key block
emits its (key text, value text) pair exactly when both resolved texts
are non-empty (emitOf); if no key block emits key text k — in
particular when the key text or the resolved value text is empty — the
mapping has no entry at k.  The unamended claim fails only when a later
key block emits the same key text and overwrites the earlier pair. -/
theorem extract_forms_last_emission (blocks : List Block) (maps : FormMaps)
    (forms es : List (String × String))
    (hm : buildFormMaps blocks = some maps)
    (hf : extract_forms blocks = some forms)
    (he : emissions maps maps.key_map = some es) :
    ∀ k, dget? forms k = lastVal es k := by
  intro k
  unfold extract_forms at hf
  simp only [hm] at hf
  rw [formsLoop_eq_emissions, he] at hf
  simp only [Option.map_some', Option.some.injEq] at hf
  rw [← hf, dget?_foldl_dinsert]
  cases lastVal es k <;> rfl

def c2wordName : Block := ⟨"wn", "WORD", some "Name", none, none, none, []⟩

def c2wordAlice : Block := ⟨"w1", "WORD", some "Alice", none, none, none, []⟩

def c2wordBob : Block := ⟨"w2", "WORD", some "Bob", none, none, none, []⟩

def c2val1 : Block :=
  ⟨"v1", "KEY_VALUE_SET", none, some ["VALUE"], none, none, [⟨"CHILD", ["w1"]⟩]⟩

def c2val2 : Block :=
  ⟨"v2", "KEY_VALUE_SET", none, some ["VALUE"], none, none, [⟨"CHILD", ["w2"]⟩]⟩

def c2key1 : Block :=
  ⟨"k1", "KEY_VALUE_SET", none, some ["KEY"], none, none,
    [⟨"VALUE", ["v1"]⟩, ⟨"CHILD", ["wn"]⟩]⟩

def c2key2 : Block :=
  ⟨"k2", "KEY_VALUE_SET", none, some ["KEY"], none, none,
    [⟨"VALUE", ["v2"]⟩, ⟨"CHILD", ["wn"]⟩]⟩

def c2blocks : List Block :=
  [c2wordName, c2wordAlice, c2wordBob, c2val1, c2val2, c2key1, c2key2]

def c2maps : FormMaps := (buildFormMaps c2blocks).getD ⟨[], [], []⟩

/-- C2 counterexample: key block k1 has a resolvable VALUE relationship
to v1 and the non-empty texts Name and Alice, so the claim requires the
pair (Name, Alice) in the output mapping; the later key block k2 also
resolves key text Name (with value text Bob) and overwrites the entry,
so extract_forms yields [(Name, Bob)] and the required pair is absent. -/
theorem form_pair_counterexample :
    find_value_block c2key1 c2maps.value_map = some c2val1 ∧
    get_text c2key1 c2maps.block_map = some "Name" ∧
    get_text c2val1 c2maps.block_map = some "Alice" ∧
    extract_forms c2blocks = some [("Name", "Bob")] ∧
    ("Name", "Alice") ∉ [("Name", "Bob")] ∧
    dget? [("Name", "Bob")] "Name" ≠ some "Alice" :=
  ⟨by decide, by decide, by decide, by decide, by decide, by decide⟩

/-- C2 witness: the amended theorem applied to the duplicate-key-text
collection: the emissions are (Name, Alice) then (Name, Bob), and the
mapping holds the last of them. -/
theorem extract_forms_last_emission_witness :
    dget? [("Name", "Bob")] "Name" =
      lastVal [("Name", "Alice"), ("Name", "Bob")] "Name" :=
  extract_forms_last_emission c2blocks c2maps [("Name", "Bob")]
    [("Name", "Alice"), ("Name", "Bob")] (by decide) (by decide) (by decide) "Name"

/-- A block that the first extract_forms loop files into value_map: a
KEY_VALUE_SET block whose EntityTypes does not contain KEY. -/
def isValueSide (b : Block) : Bool :=
  b.blockType == "KEY_VALUE_SET" && !((b.entityTypes.getD []).contains "KEY")

/-- First option if present, otherwise the fallback. -/
def orOpt {α : Type} (o fallback : Option α) : Option α :=
  match o with
  | some r => some r
  | none => fallback

theorem lastMatch_cons {α : Type} (p : α → Bool) (b : α) (rest : List α) :
    lastMatch p (b :: rest) =
      orOpt (lastMatch p rest) (if p b then some b else none) := by
  simp only [lastMatch]
  cases lastMatch p rest <;> rfl

theorem orOpt_insert (bm after : List (String × Block)) (b : Block)
    (i : String) (c : Bool) (o : Option Block)
    (htrue : c = true → dget? after i = some b)
    (hfalse : c = false → dget? after i = dget? bm i) :
    orOpt o (dget? after i) =
      orOpt (orOpt o (if c then some b else none)) (dget? bm i) := by
  cases o with
  | some r => rfl
  | none =>
    cases c with
    | true => simp [orOpt, htrue rfl]
    | false => simp [orOpt, hfalse rfl]

theorem dget?_block_map_lastMatch (blocks : List Block) (acc maps : FormMaps)
    (hm : buildFormMapsAux acc blocks = some maps) (i : String) :
    dget? maps.block_map i =
      orOpt (lastMatch (fun b => b.id == i) blocks) (dget? acc.block_map i) := by
  induction blocks generalizing acc with
  | nil =>
    simp only [buildFormMapsAux, Option.some.injEq] at hm
    subst hm
    rfl
  | cons b rest ih =>
    simp only [buildFormMapsAux] at hm
    rw [lastMatch_cons]
    have htrue : (b.id == i) = true → dget? (dinsert acc.block_map b.id b) i = some b := by
      intro hc
      have hbi : b.id = i := eq_of_beq hc
      rw [← hbi, dget?_dinsert_self]
    have hfalse : (b.id == i) = false →
        dget? (dinsert acc.block_map b.id b) i = dget? acc.block_map i := by
      intro hc
      have hne : i ≠ b.id := by
        intro h
        rw [h] at hc
        simp at hc
      rw [dget?_dinsert_ne _ _ _ _ hne]
    by_cases hb : b.blockType == "KEY_VALUE_SET"
    · simp only [hb, if_true] at hm
      cases hets : b.entityTypes with
      | none =>
        simp only [hets] at hm
        exact Option.noConfusion hm
      | some ets =>
        simp only [hets] at hm
        by_cases hkey : ets.contains "KEY"
        · simp only [hkey, if_true] at hm
          rw [ih _ hm]
          exact orOpt_insert acc.block_map _ b i _ _ htrue hfalse
        · simp only [hkey, Bool.false_eq_true, if_false] at hm
          rw [ih _ hm]
          exact orOpt_insert acc.block_map _ b i _ _ htrue hfalse
    · simp only [hb, Bool.false_eq_true, if_false] at hm
      rw [ih _ hm]
      exact orOpt_insert acc.block_map _ b i _ _ htrue hfalse

theorem dget?_value_map_lastMatch (blocks : List Block) (acc maps : FormMaps)
    (hm : buildFormMapsAux acc blocks = some maps) (i : String) :
    dget? maps.value_map i =
      orOpt (lastMatch (fun b => b.id == i && isValueSide b) blocks)
        (dget? acc.value_map i) := by
  induction blocks generalizing acc with
  | nil =>
    simp only [buildFormMapsAux, Option.some.injEq] at hm
    subst hm
    rfl
  | cons b rest ih =>
    simp only [buildFormMapsAux] at hm
    rw [lastMatch_cons]
    by_cases hb : b.blockType == "KEY_VALUE_SET"
    · simp only [hb, if_true] at hm
      cases hets : b.entityTypes with
      | none =>
        simp only [hets] at hm
        exact Option.noConfusion hm
      | some ets =>
        simp only [hets] at hm
        by_cases hkey : ets.contains "KEY"
        · simp only [hkey, if_true] at hm
          have hmem : "KEY" ∈ ets := by
            simpa [List.contains, List.elem_eq_mem] using hkey
          have hc : (b.id == i && isValueSide b) = false := by
            simp [isValueSide, hets, List.contains, List.elem_eq_mem, hmem]
          rw [ih _ hm]
          refine orOpt_insert acc.value_map acc.value_map b i _ _ ?_ (fun _ => rfl)
          intro h
          rw [hc] at h
          exact Bool.noConfusion h
        · have hkeyf : ets.contains "KEY" = false := by
            revert hkey
            cases ets.contains "KEY" <;> simp
          simp only [hkeyf, Bool.false_eq_true, if_false] at hm
          have hnmem : "KEY" ∉ ets := by
            intro hmm
            rw [List.contains, List.elem_eq_mem] at hkeyf
            simp [hmm] at hkeyf
          have hiv : isValueSide b = true := by
            simp [isValueSide, hets, hb, List.contains, List.elem_eq_mem, hnmem]
          rw [ih _ hm]
          refine orOpt_insert acc.value_map (dinsert acc.value_map b.id b) b i _ _ ?_ ?_
          · intro h
            have hid : (b.id == i) = true := ((Bool.and_eq_true _ _).mp h).1
            have hbi : b.id = i := eq_of_beq hid
            rw [← hbi, dget?_dinsert_self]
          · intro h
            have hid : (b.id == i) = false := by
              rw [hiv] at h
              simpa using h
            have hne : i ≠ b.id := by
              intro hh
              rw [hh] at hid
              simp at hid
            rw [dget?_dinsert_ne _ _ _ _ hne]
    · simp only [hb, Bool.false_eq_true, if_false] at hm
      have hbf : (b.blockType == "KEY_VALUE_SET") = false := by
        revert hb
        cases b.blockType == "KEY_VALUE_SET" <;> simp
      have hc : (b.id == i && isValueSide b) = false := by
        simp [isValueSide, hbf]
      rw [ih _ hm]
      refine orOpt_insert acc.value_map acc.value_map b i _ _ ?_ (fun _ => rfl)
      intro h
      rw [hc] at h
      exact Bool.noConfusion h

theorem findBlockById_first (blocks : List Block) (i : String) :
    findBlockById blocks i = (blocks.filter (fun b => b.id == i)).head? := by
  induction blocks with
  | nil => rfl
  | cons b rest ih =>
    by_cases hb : b.id == i
    · simp [findBlockById, List.filter_cons, hb, List.find?_cons_of_pos]
    · simp only [findBlockById, List.filter_cons, hb, Bool.false_eq_true, if_false]
      rw [List.find?_cons_of_neg _ (by simp [hb])]
      exact ih

/-- C8 (amended): duplicate ids never make reconstruction fail, but the
resolution policy is not uniformly last-write-wins.  The id index of
extract_forms (block_map, used for form text lookup) resolves to the
LAST block in collection order bearing the id, and its value-side index
(value_map, used for value pairing) to the LAST value-partitioned
KEY_VALUE_SET block bearing the id; the table word lookup of
extract_tables instead scans the collection and returns the FIRST block
bearing the id. -/
theorem dup_id_resolution_amended (blocks : List Block) (maps : FormMaps)
    (hm : buildFormMaps blocks = some maps) :
    (∀ i, dget? maps.block_map i = lastMatch (fun b => b.id == i) blocks) ∧
    (∀ i, dget? maps.value_map i =
       lastMatch (fun b => b.id == i && isValueSide b) blocks) ∧
    (∀ (bs : List Block) (i : String),
       findBlockById bs i = (bs.filter (fun b => b.id == i)).head?) := by
  refine ⟨fun i => ?_, fun i => ?_, findBlockById_first⟩
  · rw [dget?_block_map_lastMatch blocks ⟨[], [], []⟩ maps hm i]
    cases lastMatch (fun b => b.id == i) blocks <;> rfl
  · rw [dget?_value_map_lastMatch blocks ⟨[], [], []⟩ maps hm i]
    cases lastMatch (fun b => b.id == i && isValueSide b) blocks <;> rfl

def c8wA : Block := ⟨"w", "WORD", some "A", none, none, none, []⟩

def c8wB : Block := ⟨"w", "WORD", some "B", none, none, none, []⟩

def c8cell : Block :=
  ⟨"c8c", "CELL", none, none, some 1, some 1, [⟨"CHILD", ["w"]⟩]⟩

def c8table : Block :=
  ⟨"c8t", "TABLE", none, none, none, none, [⟨"CHILD", ["c8c"]⟩]⟩

def c8blocks : List Block := [c8table, c8cell, c8wA, c8wB]

def c8maps : FormMaps := (buildFormMaps c8blocks).getD ⟨[], [], []⟩

/-- C8 counterexample: two WORD blocks share the id w, the first with
text A and the second with text B.  The claim requires every resolution
of w to return the LAST block with that id, which would make the cell
text B; the table word lookup takes the FIRST match in collection order
and the code emits [["A"]]. -/
theorem dup_id_counterexample :
    extract_tables c8blocks = some [[["A"]]] ∧
    some [[["A"]]] ≠ some [[["B"]]] ∧
    findBlockById c8blocks "w" = some c8wA ∧
    lastMatch (fun b => b.id == "w") c8blocks = some c8wB ∧
    c8wA ≠ c8wB :=
  ⟨by decide, by decide, by decide, by decide, by decide⟩

/-- C8 witness: the amended theorem applied to the duplicate-id
collection: the extract_forms index resolves w to the last block (text
B) while the table word lookup resolves it to the first (text A). -/
theorem dup_id_resolution_witness :
    dget? c8maps.block_map "w" = some c8wB ∧
    findBlockById c8blocks "w" = some c8wA :=
  ⟨((dup_id_resolution_amended c8blocks c8maps (by decide)).1 "w").trans (by decide),
   ((dup_id_resolution_amended c8blocks c8maps (by decide)).2.2 c8blocks "w").trans
     (by decide)⟩
